import Mathlib

/-!
Verification of the BagWatch token-launch detection and metadata-reconciliation
pipeline.  The definitions below are shallow embeddings of the Python source
(`main.py`, `optimal_hybrid.py`, `hybrid_extraction.py`, `bags_telegram_bot.py`,
`test_full_message.py`, `main_hybrid.py`): pure string/list manipulations are
translated to Lean functions over `List Char` / `String`, imperative loops with
early `break` become structural recursions, Python `None`-able values become
`Option`, and Python truthiness of strings ("" and None are falsy) is made
explicit.  Each claim about the pipeline is then settled by a theorem about
these definitions.
-/

/-! ### Generic string helpers (Python `str` operations on `List Char`) -/

/-- Python whitespace characters recognized by `str.strip()`. -/
def isPySpace (c : Char) : Bool :=
  c == ' ' || c == '\t' || c == '\n' || c == '\r' || c == '\x0b' || c == '\x0c'

/-- Drop leading Python whitespace (left part of `str.strip()`). -/
def stripLeftL (l : List Char) : List Char := l.dropWhile isPySpace

/-- Drop trailing Python whitespace (right part of `str.strip()`). -/
def stripRightL (l : List Char) : List Char := (l.reverse.dropWhile isPySpace).reverse

/-- Python `str.strip()` on a character list. -/
def pyStrip (l : List Char) : List Char := stripRightL (stripLeftL l)

/-- Python `str.strip()` on a `String`. -/
def pyStripStr (s : String) : String := String.mk (pyStrip s.toList)

/-- Python `str.lower()` on a character list (per-character lowering). -/
def lowerL (l : List Char) : List Char := l.map Char.toLower

/-- Python `str.upper()` on a character list (per-character raising). -/
def upperL (l : List Char) : List Char := l.map Char.toUpper

/-- Python `str.lower()` on a `String`. -/
def pyLower (s : String) : String := String.mk (lowerL s.toList)

/-- Boolean test that `pat` begins the list `s` (Python `str.startswith` at a
position; also the matching step of `str.find`/`in`/`replace`). -/
def startsWith : List Char → List Char → Bool
  | [], _ => true
  | _ :: _, [] => false
  | a :: pa, b :: pb => a == b && startsWith pa pb

/-- Boolean test that `pat` occurs somewhere inside `s` (Python `pat in s`). -/
def containsSub (pat : List Char) : List Char → Bool
  | [] => startsWith pat []
  | c :: rest => startsWith pat (c :: rest) || containsSub pat rest

/-- Python `pat in s` on `String`s (argument order: haystack, needle). -/
def containsStr (s pat : String) : Bool := containsSub pat.toList s.toList

/-- All start offsets (from `i`) at which `pat` occurs in the remaining list;
models the Python loop `while True: pos = s.find(pat, start); start = pos + 1`. -/
def occurrencesAux (pat : List Char) : Nat → List Char → List Nat
  | _, [] => []
  | i, c :: rest =>
    (if startsWith pat (c :: rest) then [i] else []) ++ occurrencesAux pat (i + 1) rest

/-- All offsets at which `pat` occurs in `s`. -/
def occurrences (pat s : List Char) : List Nat := occurrencesAux pat 0 s

/-- Python `s.replace(pat, "")`: left-to-right removal of every occurrence of
`pat`.  The fuel argument (instantiated with `s.length`) keeps the recursion
structural; each step consumes one unit of fuel and at least one character. -/
def removeAllAux (pat : List Char) : Nat → List Char → List Char
  | 0, s => s
  | _, [] => []
  | fuel + 1, c :: rest =>
    if startsWith pat (c :: rest) && !pat.isEmpty then
      removeAllAux pat fuel ((c :: rest).drop pat.length)
    else
      c :: removeAllAux pat fuel rest

/-- Python `s.replace(pat, "")`. -/
def removeAll (pat s : List Char) : List Char := removeAllAux pat s.length s

/-- Python `s.split(pat)[0]`: the prefix of `s` before the first occurrence of
`pat` (all of `s` when `pat` does not occur). -/
def takeUntil (pat : List Char) : List Char → List Char
  | [] => []
  | c :: rest => if startsWith pat (c :: rest) then [] else c :: takeUntil pat rest

/-- Python truthiness of a nullable string: `None` and `""` are falsy. -/
def pyTruthy : Option String → Bool
  | none => false
  | some s => s != ""

/-- Python `a or b` over nullable strings (truthiness-based choice). -/
def pyOr (a b : Option String) : Option String := if pyTruthy a then a else b

/-! ### Constants (main.py) -/

/-- Bags launchpad update authority (`BAGS_UPDATE_AUTHORITY` in main.py). -/
def BAGS_UPDATE_AUTHORITY : String := "BAGSB9TpGrZxQbEsrEznv5jXXdwyP6AXerN8aVRiAmcv"

/-- Metaplex metadata program id (`METADATA_PROGRAM_ID` in main.py). -/
def METADATA_PROGRAM_ID : String := "metaqbxxUerdq28cj1RbAWkYQm3ybzjb6a8bt518x1s"

/-! ### C1: the dedup gate at the head of `process_new_token` (main.py 828-861)

The Python function consults and mutates the global set `seen_mints`:
```
if mint_address in seen_mints: return
seen_mints.add(mint_address)
token_data = fetch_bags_token_data(mint_address); ...notify...
```
The state is made explicit: `seen` is the current `SeenSet` and the returned
`Bool` records whether the call proceeded to fetch/notify. -/

/-- Dedup gate of `process_new_token`: `(proceeded, new seen-set)`. -/
def process_new_token (seen : List String) (mint_address : String) : Bool × List String :=
  if mint_address ∈ seen then (false, seen)
  else (true, mint_address :: seen)

/-! ### C3: name reconciliation in `fetch_bags_token_data` (main.py 294, 432-437)

`result["name"]` is initialized to the literal default `"Unknown Token"`, the
page-scraping stage may replace it (modelled by the `scrapedName` option, the
outcome of that stage), and then the Helius (on-chain asset) name overrides it
when truthy and not the default:
```
result = {"name": "Unknown Token", ...}
...page scraping may set result["name"]...
if helius_metadata["name"] and helius_metadata["name"] != "Unknown Token":
    result["name"] = helius_metadata["name"]
``` -/

/-- Reconciled display name from the secondary (scraped) and primary (Helius
on-chain asset) sources. -/
def reconcile_token_name (scrapedName : Option String) (heliusName : Option String) : String :=
  let result := match scrapedName with
    | some s => s
    | none => "Unknown Token"
  match heliusName with
  | some n => if n ≠ "" ∧ n ≠ "Unknown Token" then n else result
  | none => result

/-! ### C4: royalty-percentage selection (main.py 665-685, optimal_hybrid.py 161-175)

```
percent_matches = re.findall(r'(\d+(?:\.\d+)?)%', text)
for match in percent_matches:
    pct = float(match)
    if 0 < pct <= 50:
        result["royaltyPercentage"] = pct
        break
```
The numeric percent tokens found in the visible text, in scan order, are the
input list; the loop picks the first value in (0, 50]. -/

/-- First percent token `p` with `0 < p ≤ 50`, in scan order. -/
def extract_royalty_percentage : List ℚ → Option ℚ
  | [] => none
  | p :: rest => if 0 < p ∧ p ≤ 50 then some p else extract_royalty_percentage rest

/-! ### C10: one iteration of the polling loop `monitor_polling`
(main.py 969-999, main_hybrid.py 450-478)

```
signatures = result.get("result", [])
if signatures and signatures[0].get("signature") != last_signature:
    new_signature = signatures[0].get("signature")
    last_signature = new_signature
    await check_transaction_for_token_creation(new_signature)
```
One iteration receives the fetched batch (limit 3, newest first) and the
remembered `last_signature`; it returns the updated `last_signature` and the
list of signatures handed to `check_transaction_for_token_creation`. -/

/-- One `monitor_polling` iteration: `(new last_signature, signatures checked)`. -/
def monitor_polling_step (last_signature : Option String) (signatures : List String) :
    Option String × List String :=
  match signatures with
  | [] => (last_signature, [])
  | s0 :: _ => if some s0 ≠ last_signature then (some s0, [s0]) else (last_signature, [])

/-! ### C2: `check_transaction_for_token_creation` (main.py 867-912)

After fetching the transaction the detector runs
```
if transaction_data and transaction_data.get("meta", {}).get("err") is None:
    logs = ...logMessages...; account_keys = ...accountKeys...
    metadata_creation = any("CreateMetadataAccount" in log or "metaq" in log.lower()
                            for log in logs)
    bags_involved = BAGS_UPDATE_AUTHORITY in account_keys
    if metadata_creation and bags_involved:
        for account in account_keys:
            if (account != METADATA_PROGRAM_ID and
                account != BAGS_UPDATE_AUTHORITY and
                len(account) >= 44):
                await process_new_token(account); break
``` -/

/-- The fields of a fetched transaction the detector inspects. -/
structure TransactionData where
  err : Option String
  logMessages : List String
  accountKeys : List String

/-- A log line carries a metadata-creation marker: the substring
`"CreateMetadataAccount"`, or `"metaq"` in its lowercasing. -/
def hasCreationMarker (logs : List String) : Bool :=
  logs.any (fun log => containsStr log "CreateMetadataAccount" || containsStr (pyLower log) "metaq")

/-- The tracked issuing authority appears in the account list. -/
def involvesAuthority (account_keys : List String) : Bool :=
  account_keys.contains BAGS_UPDATE_AUTHORITY

/-- The per-account filter of the extraction loop. -/
def isMintCandidate (account : String) : Bool :=
  account != METADATA_PROGRAM_ID && account != BAGS_UPDATE_AUTHORITY &&
    decide (44 ≤ account.length)

/-- The loop `for account in account_keys: if ...: process; break`. -/
def firstMintCandidate (account_keys : List String) : Option String :=
  account_keys.find? isMintCandidate

/-- The candidate token identifier `check_transaction_for_token_creation`
hands to `process_new_token`, if any. -/
def check_transaction_for_token_creation (tx : TransactionData) : Option String :=
  if tx.err = none then
    if hasCreationMarker tx.logMessages && involvesAuthority tx.accountKeys then
      firstMintCandidate tx.accountKeys
    else none
  else none

/-! ### C8 definition: `clean_twitter_handle` (main.py 100-124)

```
if not handle: return ""
if "/status/" in handle: handle = handle.split("/status/")[0]
cleaned = (handle.replace("@", "").replace("https://x.com/", "")
           .replace("https://twitter.com/", "").replace("https://www.x.com/", "")
           .replace("https://www.twitter.com/", "").replace("x.com/", "")
           .replace("twitter.com/", "").strip())
if "/" in cleaned: cleaned = cleaned.split("/")[0]
return cleaned
``` -/

/-- The character-list body of `clean_twitter_handle`. -/
def cleanHandleList (l : List Char) : List Char :=
  let l1 := if containsSub "/status/".toList l then takeUntil "/status/".toList l else l
  let l2 := removeAll "@".toList l1
  let l3 := removeAll "https://x.com/".toList l2
  let l4 := removeAll "https://twitter.com/".toList l3
  let l5 := removeAll "https://www.x.com/".toList l4
  let l6 := removeAll "https://www.twitter.com/".toList l5
  let l7 := removeAll "x.com/".toList l6
  let l8 := removeAll "twitter.com/".toList l7
  let l9 := pyStrip l8
  if containsSub ['/'] l9 then takeUntil ['/'] l9 else l9

/-- Python `clean_twitter_handle`. -/
def clean_twitter_handle (handle : String) : String :=
  if handle = "" then "" else String.mk (cleanHandleList handle.toList)

/-! ### C6: role assignment in `get_fee_split_fast` (optimal_hybrid.py 134-157)
and `get_fee_split_only` (hybrid_extraction.py 134-157)

Both functions collect the handles of all `twitter.com`/`x.com` links in DOM
order (skipping `intent`/`share`/`home` and duplicates) and then assign
```
if twitter_handles:
    fee_data["createdBy"]["twitter"] = twitter_handles[0]
    if len(twitter_handles) > 1: fee_data["royaltiesTo"]["twitter"] = twitter_handles[1]
    else: fee_data["royaltiesTo"]["twitter"] = twitter_handles[0]
```
The role assignment consults only the order of the link elements; no page text
or phrase is inspected for the roles. -/

/-- The handle-collection loop: skip `intent`/`share`/`home` and duplicates,
keep DOM order. -/
def collect_twitter_handles : List String → List String → List String
  | [], acc => acc
  | h :: rest, acc =>
    if (h = "intent" ∨ h = "share" ∨ h = "home") ∨ h ∈ acc then
      collect_twitter_handles rest acc
    else
      collect_twitter_handles rest (acc ++ [h])

/-- Role assignment of `get_fee_split_fast`/`get_fee_split_only`:
`(createdBy.twitter, royaltiesTo.twitter)` from the link handles in DOM order. -/
def get_fee_split_fast (rawHandles : List String) : Option String × Option String :=
  match collect_twitter_handles rawHandles [] with
  | [] => (none, none)
  | h :: rest => (some h, some (rest.headD h))

/-! ### C9: the notifier display branch in `format_telegram_message`
(main.py 736-754)

```
creator_clean = clean_twitter_handle(creator_twitter)
royalty_clean = clean_twitter_handle(royalty_twitter)
if creator_clean and royalty_clean and creator_clean.lower() != royalty_clean.lower():
    message += f"\nCreator: [@{creator_clean}](https://x.com/{creator_clean})"
    message += f"\nFee Recipient: [@{royalty_clean}](https://x.com/{royalty_clean})"
elif creator_clean:
    message += f"\nCreator: [@{creator_clean}](https://x.com/{creator_clean})"
elif royalty_clean:
    message += f"\nCreator: [@{royalty_clean}](https://x.com/{royalty_clean})"
```
The emitted handle lines are modelled as a list of strings. -/

/-- The `Creator:` message line for a cleaned handle. -/
def creator_line (h : String) : String :=
  "Creator: [@" ++ h ++ "](https://x.com/" ++ h ++ ")"

/-- The `Fee Recipient:` message line for a cleaned handle. -/
def fee_recipient_line (h : String) : String :=
  "Fee Recipient: [@" ++ h ++ "](https://x.com/" ++ h ++ ")"

/-- The handle lines emitted by `format_telegram_message` for the raw creator
and fee-recipient handles. -/
def format_twitter_lines (creator_twitter royalty_twitter : String) : List String :=
  let c := clean_twitter_handle creator_twitter
  let r := clean_twitter_handle royalty_twitter
  if c ≠ "" ∧ r ≠ "" ∧ pyLower c ≠ pyLower r then [creator_line c, fee_recipient_line r]
  else if c ≠ "" then [creator_line c]
  else if r ≠ "" then [creator_line r]
  else []

/-! ### C7: the on-chain asset (Helius `getAsset`) adapters
(main.py 139-232 `get_helius_metadata`, optimal_hybrid.py 24-89
`get_helius_metadata`)

The RPC response's `result` field is the adapter input: `none` models a
null/absent asset ("not yet indexed"), `some asset` an indexed asset whose
sub-objects may be empty (Python `.get(..., {})` defaults are modelled by the
record fields being `Option`s / lists). -/

/-- The `content.links` sub-object consulted by main.py's adapter. -/
structure HeliusLinks where
  external_url : Option String
  twitter : Option String
deriving DecidableEq

/-- One entry of `content.metadata.attributes` (`trait_type` / `value`; the
Python `isinstance(value, str)` guard is modelled by `value` being a string,
with missing keys defaulting to `""` as in `attr.get(..., "")`). -/
structure HeliusAttr where
  trait_type : String
  value : String
deriving DecidableEq

/-- The `content.metadata` sub-object consulted by main.py's adapter. -/
structure HeliusMeta where
  name : Option String
  symbol : Option String
  image : Option String
  external_url : Option String
  website : Option String
  attributes : List HeliusAttr
deriving DecidableEq

/-- The asset object of a successful `getAsset` response (main.py model). -/
structure HeliusAsset where
  metadata : HeliusMeta
  links : HeliusLinks
deriving DecidableEq

/-- The dictionary main.py's `get_helius_metadata` returns: every field
nullable, with `{"name": None, ..., "twitter": None}` the all-null value. -/
structure HeliusRecord where
  name : Option String
  symbol : Option String
  image : Option String
  website : Option String
  twitter : Option String
deriving DecidableEq

/-- `if v and v.strip(): field = v.strip()` (symbol/image/website fields). -/
def stripOptField (v : Option String) : Option String :=
  match v with
  | none => none
  | some s => if s ≠ "" ∧ pyStripStr s ≠ "" then some (pyStripStr s) else none

/-- `if name and name.strip() and name != mint_address: name.strip()`. -/
def nameFieldOf (mint_address : String) (v : Option String) : Option String :=
  match v with
  | none => none
  | some s =>
    if s ≠ "" ∧ pyStripStr s ≠ "" ∧ s ≠ mint_address then some (pyStripStr s) else none

/-- The attribute-value Twitter cleanup of main.py's adapter:
`value.replace("@", "").replace("https://twitter.com/", "").replace("https://x.com/", "").strip()`. -/
def attrTwitterClean (v : String) : String :=
  String.mk (pyStrip (removeAll "https://x.com/".toList
    (removeAll "https://twitter.com/".toList (removeAll "@".toList v.toList))))

/-- One step of the `for attr in attributes:` loop over the running
`(twitter, website)` state. -/
def applyHeliusAttr (st : Option String × Option String) (attr : HeliusAttr) :
    Option String × Option String :=
  let tt := pyLower attr.trait_type
  if containsStr tt "twitter" || containsStr tt "x" then
    if attr.value ≠ "" ∧ attrTwitterClean attr.value ≠ "" then
      (some (attrTwitterClean attr.value), st.2)
    else st
  else if containsStr tt "website" ∧ pyTruthy st.2 = false then
    if attr.value ≠ "" ∧ startsWith "http".toList attr.value.toList then (st.1, some attr.value)
    else st
  else st

/-- `twitter_url.split("/")[-1]`. -/
def lastUrlSegment (s : String) : String :=
  String.mk ((s.toList.reverse.takeWhile (fun c => c != '/')).reverse)

/-- The `links` fallback section of main.py's adapter over the running
`(twitter, website)` state. -/
def applyHeliusLinks (links : HeliusLinks) (st : Option String × Option String) :
    Option String × Option String :=
  let website := if pyTruthy st.2 = false ∧ pyTruthy links.external_url then links.external_url
    else st.2
  let twitter :=
    if pyTruthy st.1 = false ∧ pyTruthy links.twitter then
      match links.twitter with
      | some url =>
        if containsStr url "twitter.com/" || containsStr url "x.com/" then
          some (lastUrlSegment url)
        else st.1
      | none => st.1
    else st.1
  (twitter, website)

/-- main.py's `get_helius_metadata`: on a null/absent asset it falls through to
`return {"name": None, "symbol": None, "image": None, "website": None,
"twitter": None}` — a success record with all fields null, not a
distinguishable failure. -/
def get_helius_metadata_main (mint_address : String) (assetResult : Option HeliusAsset) :
    HeliusRecord :=
  match assetResult with
  | none => ⟨none, none, none, none, none⟩
  | some asset =>
    let md := asset.metadata
    let name := nameFieldOf mint_address md.name
    let symbol := stripOptField md.symbol
    let image := stripOptField md.image
    let website0 := stripOptField (pyOr md.external_url md.website)
    let st1 := md.attributes.foldl applyHeliusAttr (none, website0)
    let st2 := applyHeliusLinks asset.links st1
    ⟨name, symbol, image, st2.2, st2.1⟩

/-- The asset object consulted by optimal_hybrid.py's adapter: `files` is the
list of `file.get("uri")` values, `links_image` is `links.get("image")`. -/
structure OptimalAsset where
  metadata_name : Option String
  metadata_symbol : Option String
  metadata_description : Option String
  metadata_uri : Option String
  files : List (Option String)
  links_image : Option String
deriving DecidableEq

/-- The record optimal_hybrid.py's adapter returns on success. -/
structure OptimalRecord where
  name : String
  symbol : String
  image : Option String
  description : String
deriving DecidableEq

/-- optimal_hybrid.py's `get_helius_metadata`: `if not asset_data: return None`
— a missing asset is a distinguishable failure.  `uriFetch` models the network
fallback that fetches `metadata["uri"]`: `none` is a failed fetch (image left
unchanged), `some v` a successful fetch whose JSON's `image` field is `v`. -/
def get_helius_metadata_optimal (assetResult : Option OptimalAsset)
    (uriFetch : Option (Option String)) : Option OptimalRecord :=
  match assetResult with
  | none => none
  | some a =>
    let image0 : Option String := match a.files with
      | f :: _ => f
      | [] => none
    let image1 := if pyTruthy image0 then image0 else a.links_image
    let image2 :=
      if pyTruthy image1 = false ∧ pyTruthy a.metadata_uri then
        match uriFetch with
        | none => image1
        | some v => v
      else image1
    some ⟨a.metadata_name.getD "Unknown Token", a.metadata_symbol.getD "UNKNOWN",
      image2, a.metadata_description.getD ""⟩

/-! ### C5: proximity-based role classification in `get_fee_split_data`
(test_full_message.py 115-161; the same first-match-wins proximity idea is the
last-resort stage of main.py 570-610)

For each social link's handle, in DOM order, the Python code collects every
byte offset of the handle (case-insensitive) in the page source, and for each
offset inspects the ±300-character window:
```
for pos in handle_positions:
    context = page_source[max(0, pos-300) : min(len(page_source), pos+300)].lower()
    if "created by" in context and handle.lower() in context and not creator_handle:
        creator_handle = handle; break
    elif "royalties to" in context and handle.lower() in context and not fee_handle:
        fee_handle = handle; break
    elif "earns 100%" in context and handle.lower() in context and not fee_handle:
        fee_handle = handle; break
    elif "earns 0%" in context and handle.lower() in context and not creator_handle:
        creator_handle = handle; break
```
The handles extracted from the link elements (the regex stage on `href`s) are
the `handles` input, in document order. -/

/-- `page_source[max(0, pos-300) : min(len(page_source), pos+300)]`. -/
def contextWindow (s : List Char) (pos : Nat) : List Char :=
  let a := pos - 300
  let b := min s.length (pos + 300)
  (s.drop a).take (b - a)

/-- The per-handle offset loop with its first-match-wins `break`s, over the
running `(creator_handle, fee_handle)` state. -/
def classifyHandle (src : List Char) (h : String) (creator fee : Option String) :
    List Nat → Option String × Option String
  | [] => (creator, fee)
  | pos :: rest =>
    let context := lowerL (contextWindow src pos)
    let hl := lowerL (upperL h.toList)
    if containsSub "created by".toList context && containsSub hl context && creator.isNone then
      (some h, fee)
    else if containsSub "royalties to".toList context && containsSub hl context && fee.isNone then
      (creator, some h)
    else if containsSub "earns 100%".toList context && containsSub hl context && fee.isNone then
      (creator, some h)
    else if containsSub "earns 0%".toList context && containsSub hl context && creator.isNone then
      (some h, fee)
    else classifyHandle src h creator fee rest

/-- The outer loop over the link handles in DOM order (skipping
`intent`/`share`/`home`), threading the `(creator, fee)` state. -/
def feeSplitLoop (src : List Char) :
    List String → Option String × Option String → Option String × Option String
  | [], st => st
  | h :: rest, st =>
    if h = "intent" ∨ h = "share" ∨ h = "home" then feeSplitLoop src rest st
    else
      feeSplitLoop src rest
        (classifyHandle src h st.1 st.2 (occurrences (upperL h.toList) (upperL src)))

/-- `get_fee_split_data`'s `(createdBy.twitter, royaltiesTo.twitter)` result
(the Python function returns `creator_handle or ""` / `fee_handle or ""`). -/
def get_fee_split_data (pageSource : String) (handles : List String) : String × String :=
  let st := feeSplitLoop pageSource.toList handles (none, none)
  (st.1.getD "", st.2.getD "")

/-- Page used to witness the amended C5 statement: the two anchor phrases are
far enough apart that the fee recipient's ±300-character window no longer
contains `"created by"`. -/
def pageFarApart : String :=
  "created by alice" ++ String.mk (List.replicate 300 ' ') ++ "royalties to bob"

/-! ## Theorems -/

/-- C1: the dedup gate admits each identifier exactly once: with `i` not yet
seen the call proceeds and records `i`; with `i` seen the call returns
immediately with no state change; and no call ever removes a recorded
identifier (so every later call with the same `i` is rejected). -/
theorem process_new_token_admits_once : ∀ (seen : List String) (i : String),
    (i ∉ seen → process_new_token seen i = (true, i :: seen)) ∧
    (i ∈ seen → process_new_token seen i = (false, seen)) ∧
    (∀ x ∈ seen, x ∈ (process_new_token seen i).2) := by
  intro seen i
  refine ⟨fun h => ?_, fun h => ?_, fun x hx => ?_⟩
  · simp [process_new_token, h]
  · simp [process_new_token, h]
  · by_cases h : i ∈ seen <;> simp [process_new_token, h, hx]

/-- C1 witness: starting from the empty seen-set, the first call with `"MintA"`
proceeds and records it, and the immediately following call is rejected with
no state change. -/
theorem process_new_token_admits_once_witness :
    process_new_token [] "MintA" = (true, ["MintA"]) ∧
    process_new_token ["MintA"] "MintA" = (false, ["MintA"]) :=
  ⟨(process_new_token_admits_once [] "MintA").1 (by simp),
   (process_new_token_admits_once ["MintA"] "MintA").2.1 (by simp)⟩

/-- C3: name reconciliation is first-non-null-wins with the on-chain (Helius)
asset adapter primary: a truthy non-default primary name `a` always wins; with
the primary absent the secondary name `b` wins; with both absent the result is
the literal default `"Unknown Token"`. -/
theorem reconcile_name_first_non_null : ∀ a b : String,
    a ≠ "" → a ≠ "Unknown Token" →
    reconcile_token_name (some b) (some a) = a ∧
    reconcile_token_name (some b) none = b ∧
    reconcile_token_name none none = "Unknown Token" := by
  intro a b ha ha'
  refine ⟨?_, rfl, rfl⟩
  simp [reconcile_token_name, ha, ha']

/-- C3 witness at the spec's concrete instance: primary `"A"` beats secondary
`"B"`, secondary `"B"` is used when the primary is absent, and both absent
yield `"Unknown Token"`. -/
theorem reconcile_name_first_non_null_witness :
    reconcile_token_name (some "B") (some "A") = "A" ∧
    reconcile_token_name (some "B") none = "B" ∧
    reconcile_token_name none none = "Unknown Token" :=
  reconcile_name_first_non_null "A" "B" (by decide) (by decide)

/-- C4: the royalty scan accepts the first percent token in `(0, 50]`: on the
token list `[0, 75, 12.5]` it selects `12.5` (skipping `0` as non-positive and
`75` as above the ceiling), and any selected royalty lies in `(0, 50]`. -/
theorem royalty_selection_rule :
    extract_royalty_percentage [0, 75, 12.5] = some 12.5 ∧
    ∀ (ps : List ℚ) (r : ℚ), extract_royalty_percentage ps = some r → 0 < r ∧ r ≤ 50 := by
  constructor
  · norm_num [extract_royalty_percentage]
  · intro ps
    induction ps with
    | nil => intro r h; simp [extract_royalty_percentage] at h
    | cons p rest ih =>
      intro r h
      by_cases hp : 0 < p ∧ p ≤ 50
      · simp only [extract_royalty_percentage, if_pos hp, Option.some.injEq] at h
        exact h ▸ hp
      · simp only [extract_royalty_percentage, if_neg hp] at h
        exact ih r h

/-- C4 witness: the value selected from `[0, 75, 12.5]` indeed lies in
`(0, 50]`, obtained by feeding the computed selection back into the bound. -/
theorem royalty_selection_rule_witness : 0 < (12.5 : ℚ) ∧ (12.5 : ℚ) ≤ 50 :=
  royalty_selection_rule.2 [0, 75, 12.5] 12.5 royalty_selection_rule.1

/-- `List.find?` finds exactly the first element satisfying the predicate. -/
theorem find_eq_some_characterization {α : Type} (p : α → Bool) :
    ∀ (l : List α) (a : α),
      l.find? p = some a ↔
        ∃ l1 l2, l = l1 ++ a :: l2 ∧ p a = true ∧ ∀ x ∈ l1, p x = false := by
  intro l
  induction l with
  | nil =>
    intro a
    simp [List.find?]
  | cons b rest ih =>
    intro a
    by_cases hb : p b = true
    · rw [List.find?_cons_of_pos _ hb]
      constructor
      · rintro ⟨rfl⟩
        exact ⟨[], rest, rfl, hb, by simp⟩
      · rintro ⟨l1, l2, heq, _, hprev⟩
        match l1, heq with
        | [], heq => simp at heq; simp [heq.1]
        | x :: l1', heq =>
          simp only [List.cons_append, List.cons.injEq] at heq
          have := hprev x (by simp)
          rw [← heq.1] at this
          rw [this] at hb
          cases hb
    · have hb' : p b = false := by simpa using hb
      rw [List.find?_cons_of_neg _ (by simp [hb'])]
      rw [ih a]
      constructor
      · rintro ⟨l1, l2, heq, hpa, hprev⟩
        refine ⟨b :: l1, l2, by simp [heq], hpa, ?_⟩
        intro x hx
        rcases List.mem_cons.mp hx with rfl | hx'
        · exact hb'
        · exact hprev x hx'
      · rintro ⟨l1, l2, heq, hpa, hprev⟩
        match l1, heq with
        | [], heq =>
          simp only [List.nil_append, List.cons.injEq] at heq
          rw [← heq.1] at hpa
          rw [hpa] at hb'
          cases hb'
        | x :: l1', heq =>
          simp only [List.cons_append, List.cons.injEq] at heq
          exact ⟨l1', l2, heq.2, hpa, fun y hy => hprev y (by simp [hy])⟩

/-- C2: the detector extracts a candidate identifier exactly when the error
field is null, a metadata-creation marker appears in the logs and the tracked
authority is among the accounts; a non-null error discards the transaction
before any marker inspection; and the extracted identifier is precisely the
first account in list order that is neither the metadata program id nor the
authority and has length at least 44. -/
theorem check_transaction_extraction_rule : ∀ (tx : TransactionData) (i : String),
    (tx.err ≠ none → check_transaction_for_token_creation tx = none) ∧
    (check_transaction_for_token_creation tx = some i ↔
      tx.err = none ∧ hasCreationMarker tx.logMessages = true ∧
      involvesAuthority tx.accountKeys = true ∧ firstMintCandidate tx.accountKeys = some i) ∧
    (firstMintCandidate tx.accountKeys = some i ↔
      ∃ l1 l2, tx.accountKeys = l1 ++ i :: l2 ∧ isMintCandidate i = true ∧
        ∀ a ∈ l1, isMintCandidate a = false) := by
  intro tx i
  refine ⟨fun h => ?_, ?_, find_eq_some_characterization isMintCandidate tx.accountKeys i⟩
  · simp [check_transaction_for_token_creation, h]
  · constructor
    · intro h
      by_cases herr : tx.err = none
      · simp only [check_transaction_for_token_creation, if_pos herr] at h
        by_cases hcond : hasCreationMarker tx.logMessages && involvesAuthority tx.accountKeys
        · rw [if_pos hcond] at h
          simp only [Bool.and_eq_true] at hcond
          exact ⟨herr, hcond.1, hcond.2, h⟩
        · rw [if_neg hcond] at h
          cases h
      · simp [check_transaction_for_token_creation, herr] at h
    · rintro ⟨herr, hmark, hauth, hfind⟩
      simp [check_transaction_for_token_creation, herr, hmark, hauth, hfind]

/-- C2 witness: the spec's end-to-end example transaction (null error, metaq
invoke plus `CreateMetadataAccount` logs, accounts = metadata program id,
authority, then a 44-character mint) yields exactly that mint. -/
theorem check_transaction_extraction_rule_witness :
    check_transaction_for_token_creation
      ⟨none,
       ["Program metaq invoke [1]", "Instruction: CreateMetadataAccount"],
       [METADATA_PROGRAM_ID, BAGS_UPDATE_AUTHORITY,
        "Tok1ABCDEFGHIJKLMNOPQRSTUVWXYZabcdefghijBAGS"]⟩
      = some "Tok1ABCDEFGHIJKLMNOPQRSTUVWXYZabcdefghijBAGS" :=
  (check_transaction_extraction_rule _ _).2.1.mpr
    ⟨rfl, by decide, by decide, by decide⟩

/-- C5 counterexample: on the page `"created by alice royalties to bob"`
(where `"alice"` occurs exactly once, 11 characters from `"created by"`, and
`"bob"` occurs exactly once, 13 characters from `"royalties to"` — both well
within 50), the extraction is NOT order-independent: link order
`["alice", "bob"]` yields creator `"alice"` / fee `"bob"`, but link order
`["bob", "alice"]` yields creator `"bob"` / fee `"alice"`, because `"bob"`'s
±300-character window also contains `"created by"` and the first branch wins. -/
theorem fee_split_order_dependent_cex :
    occurrences (upperL "alice".toList)
      (upperL "created by alice royalties to bob".toList) = [11] ∧
    occurrences (upperL "bob".toList)
      (upperL "created by alice royalties to bob".toList) = [30] ∧
    occurrences "created by".toList "created by alice royalties to bob".toList = [0] ∧
    occurrences "royalties to".toList "created by alice royalties to bob".toList = [17] ∧
    11 - 0 ≤ 50 ∧ 30 - 17 ≤ 50 ∧
    get_fee_split_data "created by alice royalties to bob" ["alice", "bob"]
      = ("alice", "bob") ∧
    get_fee_split_data "created by alice royalties to bob" ["bob", "alice"]
      = ("bob", "alice") ∧
    get_fee_split_data "created by alice royalties to bob" ["bob", "alice"]
      ≠ ("alice", "bob") := by
  decide

/-- C5 (amended): proximity classification is order-independent only when the
windows do not overlap the other role's phrase: if `alice` occurs exactly once
with `"created by"` (and `alice` itself) in its ±300-character window, and
`bob` occurs exactly once with `"royalties to"` (and `bob`) in its window
while `"created by"` does NOT occur in `bob`'s window, then both DOM orders of
the two link elements yield creator `alice` and fee recipient `bob`.  In
general (see the counterexample) the result depends on the DOM order. -/
theorem fee_split_proximity_amended :
    ∀ (page alice bob : String) (pa pb : Nat),
    alice ≠ "intent" → alice ≠ "share" → alice ≠ "home" →
    bob ≠ "intent" → bob ≠ "share" → bob ≠ "home" →
    occurrences (upperL alice.toList) (upperL page.toList) = [pa] →
    occurrences (upperL bob.toList) (upperL page.toList) = [pb] →
    containsSub "created by".toList (lowerL (contextWindow page.toList pa)) = true →
    containsSub (lowerL (upperL alice.toList)) (lowerL (contextWindow page.toList pa)) = true →
    containsSub "created by".toList (lowerL (contextWindow page.toList pb)) = false →
    containsSub "royalties to".toList (lowerL (contextWindow page.toList pb)) = true →
    containsSub (lowerL (upperL bob.toList)) (lowerL (contextWindow page.toList pb)) = true →
    get_fee_split_data page [alice, bob] = (alice, bob) ∧
    get_fee_split_data page [bob, alice] = (alice, bob) := by
  intro page alice bob pa pb ha1 ha2 ha3 hb1 hb2 hb3 hOA hOB hA1 hA2 hB1 hB2 hB3
  constructor
  · simp only [get_fee_split_data, feeSplitLoop, ha1, ha2, ha3, hb1, hb2, hb3, hOA, hOB,
      classifyHandle, hA1, hA2, hB1, hB2, hB3, Option.isNone_none, Option.isNone_some,
      Bool.and_true, Bool.true_and, Bool.and_false, Bool.false_and, if_true, if_false,
      or_self, Option.getD_some, ite_true, ite_false, Bool.false_eq_true, false_or]
  · simp only [get_fee_split_data, feeSplitLoop, ha1, ha2, ha3, hb1, hb2, hb3, hOA, hOB,
      classifyHandle, hA1, hA2, hB1, hB2, hB3, Option.isNone_none, Option.isNone_some,
      Bool.and_true, Bool.true_and, Bool.and_false, Bool.false_and, if_true, if_false,
      or_self, Option.getD_some, ite_true, ite_false, Bool.false_eq_true, false_or]

set_option maxRecDepth 100000 in
/-- C5 witness for the amended statement: on `pageFarApart` (anchor phrases
separated by 300 spaces, so `"bob"`'s window excludes `"created by"`), both
link orders yield creator `"alice"` and fee recipient `"bob"`. -/
theorem fee_split_proximity_amended_witness :
    get_fee_split_data pageFarApart ["alice", "bob"] = ("alice", "bob") ∧
    get_fee_split_data pageFarApart ["bob", "alice"] = ("alice", "bob") :=
  fee_split_proximity_amended pageFarApart "alice" "bob" 11 329
    (by decide) (by decide) (by decide) (by decide) (by decide) (by decide)
    (by decide) (by decide) (by decide) (by decide) (by decide) (by decide) (by decide)

/-- C6 counterexample: with a single social link for handle `"alice"` on a page
containing no `"created by"` / `"royalties to"` phrase at all (the fast
adapter's role assignment never consults the page text), both roles are
nevertheless assigned to `"alice"` purely by link position — refuting the
claim that a role with no phrase-anchored match is returned absent. -/
theorem fee_split_fast_positional_cex :
    get_fee_split_fast ["alice"] = (some "alice", some "alice") ∧
    get_fee_split_fast ["alice"] ≠ (none, none) := by decide

/-- C6 (amended): the fast fee-split adapters (`get_fee_split_fast`,
`get_fee_split_only`) assign the roles purely ordinally: after skip/dedup
filtering, the creator is the first link handle and the fee recipient the
second (the first again if only one); both roles are absent exactly when no
handles were collected.  (The phrase-anchored, no-ordinal-fallback behaviour
claimed holds for the main adapter in main.py, not for these variants.) -/
theorem fee_split_fast_ordinal_rule : ∀ raws : List String,
    (collect_twitter_handles raws [] = [] → get_fee_split_fast raws = (none, none)) ∧
    (∀ h rest, collect_twitter_handles raws [] = h :: rest →
      get_fee_split_fast raws = (some h, some (rest.headD h))) := by
  intro raws
  constructor
  · intro h
    simp [get_fee_split_fast, h]
  · intro h rest hh
    simp [get_fee_split_fast, hh]

/-- C6 witness: from link handles `["alice", "bob"]` (no phrases anywhere),
the ordinal rule yields creator `"alice"` and fee recipient `"bob"`. -/
theorem fee_split_fast_ordinal_rule_witness :
    get_fee_split_fast ["alice", "bob"] = (some "alice", some "bob") :=
  (fee_split_fast_ordinal_rule ["alice", "bob"]).2 "alice" ["bob"] (by decide)

/-- C9: the display branch is decided by case-insensitive comparison of the
cleaned handles: with both non-empty, separate `Creator` and `Fee Recipient`
lines are emitted iff the lowercased handles differ, otherwise a single
`Creator` line; with only the fee-recipient handle non-empty, it is displayed
labeled `Creator`. -/
theorem format_twitter_display_branch : ∀ ct rt : String,
    (clean_twitter_handle ct ≠ "" → clean_twitter_handle rt ≠ "" →
      ((format_twitter_lines ct rt =
          [creator_line (clean_twitter_handle ct), fee_recipient_line (clean_twitter_handle rt)]
        ↔ pyLower (clean_twitter_handle ct) ≠ pyLower (clean_twitter_handle rt)) ∧
       (pyLower (clean_twitter_handle ct) = pyLower (clean_twitter_handle rt) →
        format_twitter_lines ct rt = [creator_line (clean_twitter_handle ct)]))) ∧
    (clean_twitter_handle ct = "" → clean_twitter_handle rt ≠ "" →
      format_twitter_lines ct rt = [creator_line (clean_twitter_handle rt)]) := by
  intro ct rt
  constructor
  · intro hc hr
    by_cases hlow : pyLower (clean_twitter_handle ct) = pyLower (clean_twitter_handle rt)
    · have hcond : ¬(clean_twitter_handle ct ≠ "" ∧ clean_twitter_handle rt ≠ "" ∧
          pyLower (clean_twitter_handle ct) ≠ pyLower (clean_twitter_handle rt)) :=
        fun h => h.2.2 hlow
      have hfmt : format_twitter_lines ct rt = [creator_line (clean_twitter_handle ct)] := by
        simp only [format_twitter_lines]
        rw [if_neg hcond, if_pos hc]
      refine ⟨⟨fun h => ?_, fun h => absurd hlow h⟩, fun _ => hfmt⟩
      exfalso
      rw [hfmt] at h
      have := congrArg List.length h
      simp at this
    · have hcond : clean_twitter_handle ct ≠ "" ∧ clean_twitter_handle rt ≠ "" ∧
          pyLower (clean_twitter_handle ct) ≠ pyLower (clean_twitter_handle rt) :=
        ⟨hc, hr, hlow⟩
      have hfmt : format_twitter_lines ct rt =
          [creator_line (clean_twitter_handle ct),
           fee_recipient_line (clean_twitter_handle rt)] := by
        simp only [format_twitter_lines]
        rw [if_pos hcond]
      exact ⟨⟨fun _ => hlow, fun _ => hfmt⟩, fun h => absurd h hlow⟩
  · intro hc hr
    simp only [format_twitter_lines]
    rw [if_neg (fun h => h.1 hc), if_neg (fun h => h hc), if_pos hr]

/-- C9 witness: raw handles `"@alice"` and `"https://x.com/Alice"` clean to
`"alice"` and `"Alice"`, which agree case-insensitively, so a single `Creator`
line is emitted. -/
theorem format_twitter_display_branch_witness :
    format_twitter_lines "@alice" "https://x.com/Alice" = [creator_line "alice"] := by
  have h := ((format_twitter_display_branch "@alice" "https://x.com/Alice").1
    (by decide) (by decide)).2 (by decide)
  rw [show clean_twitter_handle "@alice" = "alice" from by decide] at h
  exact h

/-- C7 counterexample: on a null/absent asset, main.py's on-chain asset adapter
does NOT report a distinguishable failure — it returns a success record whose
fields are all null, and that record is literally identical to the one
returned for an indexed asset whose metadata is entirely empty, so callers
cannot distinguish "not yet indexed" from "indexed but empty". -/
theorem helius_missing_asset_cex :
    get_helius_metadata_main "Mint1" none = ⟨none, none, none, none, none⟩ ∧
    get_helius_metadata_main "Mint1" none =
      get_helius_metadata_main "Mint1"
        (some ⟨⟨none, none, none, none, none, []⟩, ⟨none, none⟩⟩) := by
  exact ⟨rfl, rfl⟩

/-- C7 (amended): of the two on-chain asset adapters, main.py's
`get_helius_metadata` maps a missing asset to the all-null success record
(indistinguishable from "indexed but empty"), while optimal_hybrid.py's
`get_helius_metadata` reports a distinguishable failure (`None`) exactly when
the asset is missing. -/
theorem helius_missing_asset_amended :
    (∀ mint_address : String,
      get_helius_metadata_main mint_address none = ⟨none, none, none, none, none⟩) ∧
    (∀ (assetResult : Option OptimalAsset) (uriFetch : Option (Option String)),
      get_helius_metadata_optimal assetResult uriFetch = none ↔ assetResult = none) := by
  constructor
  · intro mint_address
    rfl
  · intro assetResult uriFetch
    cases assetResult <;> simp [get_helius_metadata_optimal]

/-- Characters of a matched pattern occur in the scanned list. -/
theorem startsWith_mem : ∀ (pat s : List Char), startsWith pat s = true →
    ∀ c ∈ pat, c ∈ s := by
  intro pat
  induction pat with
  | nil => intro s _ c hc; cases hc
  | cons a pa ih =>
    intro s hsw c hc
    match s, hsw with
    | b :: bs, hsw =>
      simp only [startsWith, Bool.and_eq_true, beq_iff_eq] at hsw
      rcases List.mem_cons.mp hc with rfl | hc'
      · simp [hsw.1]
      · exact List.mem_cons_of_mem _ (ih bs hsw.2 c hc')

/-- Characters of a substring occur in the haystack. -/
theorem containsSub_mem : ∀ (pat s : List Char), containsSub pat s = true →
    ∀ c ∈ pat, c ∈ s := by
  intro pat s
  induction s with
  | nil =>
    intro h c hc
    match pat, h with
    | [], _ => cases hc
  | cons d rest ih =>
    intro h c hc
    simp only [containsSub, Bool.or_eq_true] at h
    rcases h with h | h
    · exact startsWith_mem pat (d :: rest) h c hc
    · exact List.mem_cons_of_mem _ (ih h c hc)

/-- `s.replace(pat, "")` is the identity when some character of `pat` does not
occur in `s`. -/
theorem removeAllAux_eq_self {c : Char} {pat : List Char} (hc : c ∈ pat) :
    ∀ (fuel : Nat) (s : List Char), c ∉ s → removeAllAux pat fuel s = s := by
  intro fuel
  induction fuel with
  | zero => intro s _; cases s <;> rfl
  | succ fuel ih =>
    intro s hs
    match s with
    | [] => rfl
    | d :: rest =>
      have hsw : startsWith pat (d :: rest) = false := by
        cases h : startsWith pat (d :: rest)
        · rfl
        · exact absurd (startsWith_mem pat (d :: rest) h c hc) hs
      have hrest : c ∉ rest := fun h => hs (List.mem_cons_of_mem _ h)
      simp only [removeAllAux, hsw, Bool.false_and, Bool.false_eq_true, if_false,
        List.cons.injEq, ite_false]
      exact ⟨trivial, ih rest hrest⟩

/-- `removeAll` form of `removeAllAux_eq_self`. -/
theorem removeAll_eq_self {c : Char} {pat s : List Char} (hc : c ∈ pat) (hs : c ∉ s) :
    removeAll pat s = s :=
  removeAllAux_eq_self hc s.length s hs

/-- Membership is preserved backwards through `List.dropWhile`. -/
theorem mem_dropWhile_imp {c : Char} {p : Char → Bool} :
    ∀ {l : List Char}, c ∈ List.dropWhile p l → c ∈ l := by
  intro l
  induction l with
  | nil => intro h; exact h
  | cons a t ih =>
    intro h
    by_cases hp : p a = true
    · rw [List.dropWhile_cons, if_pos hp] at h
      exact List.mem_cons_of_mem _ (ih h)
    · rw [List.dropWhile_cons, if_neg hp] at h
      exact h

/-- Membership is preserved backwards through `pyStrip`. -/
theorem pyStrip_subset {c : Char} {l : List Char} (h : c ∈ pyStrip l) : c ∈ l := by
  have h1 : c ∈ (stripLeftL l).reverse.dropWhile isPySpace := by
    simpa [pyStrip, stripRightL] using h
  have h2 : c ∈ stripLeftL l := by
    simpa using mem_dropWhile_imp h1
  exact mem_dropWhile_imp h2

/-- `List.dropWhile` is idempotent. -/
theorem dropWhile_dropWhile (p : Char → Bool) :
    ∀ l : List Char, List.dropWhile p (List.dropWhile p l) = List.dropWhile p l := by
  intro l
  induction l with
  | nil => rfl
  | cons a t ih =>
    by_cases hp : p a = true
    · rw [List.dropWhile_cons, if_pos hp, ih]
    · rw [List.dropWhile_cons, if_neg hp, List.dropWhile_cons, if_neg hp]

/-- `List.dropWhile` results are no longer than the input. -/
theorem dropWhile_length_le (p : Char → Bool) :
    ∀ l : List Char, (List.dropWhile p l).length ≤ l.length := by
  intro l
  induction l with
  | nil => exact Nat.le_refl _
  | cons a t ih =>
    by_cases hp : p a = true
    · rw [List.dropWhile_cons, if_pos hp]
      exact Nat.le_succ_of_le ih
    · rw [List.dropWhile_cons, if_neg hp]

/-- A list that `dropWhile` leaves unchanged also leaves each of its initial
segments unchanged. -/
theorem dropWhile_eq_self_of_append {p : Char → Bool} {m y t : List Char}
    (hm : List.dropWhile p m = m) (hy : y ++ t = m) : List.dropWhile p y = y := by
  match y, hy with
  | [], _ => rfl
  | a :: y', hy =>
    have hp : p a = false := by
      cases hp : p a
      · rfl
      · exfalso
        rw [← hy, List.cons_append, List.dropWhile_cons, if_pos hp] at hm
        have hlen := congrArg List.length hm
        have hle := dropWhile_length_le p (y' ++ t)
        simp only [List.length_cons] at hlen
        omega
    rw [List.dropWhile_cons, if_neg (by simp [hp])]

/-- `stripRightL m` is an initial segment of `m`. -/
theorem stripRight_append (m : List Char) :
    stripRightL m ++ (m.reverse.takeWhile isPySpace).reverse = m := by
  rw [stripRightL, ← List.reverse_append, List.takeWhile_append_dropWhile,
    List.reverse_reverse]

/-- `stripRightL` is idempotent. -/
theorem stripRight_idem (m : List Char) : stripRightL (stripRightL m) = stripRightL m := by
  rw [stripRightL, stripRightL, List.reverse_reverse, dropWhile_dropWhile]

/-- Python `str.strip()` is idempotent. -/
theorem pyStrip_idem (l : List Char) : pyStrip (pyStrip l) = pyStrip l := by
  have hm : List.dropWhile isPySpace (stripLeftL l) = stripLeftL l :=
    dropWhile_dropWhile isPySpace l
  have h1 : stripLeftL (stripRightL (stripLeftL l)) = stripRightL (stripLeftL l) :=
    dropWhile_eq_self_of_append hm (stripRight_append (stripLeftL l))
  show stripRightL (stripLeftL (stripRightL (stripLeftL l))) = stripRightL (stripLeftL l)
  rw [h1, stripRight_idem]

/-- On input with no `'@'` and no `'/'`, the body of `clean_twitter_handle`
degenerates to `str.strip()`: the `"/status/"` split and every `replace` are
identities, and the final `"/"` split does not fire. -/
theorem cleanHandleList_eq_pyStrip (l : List Char) (hAt : '@' ∉ l) (hSl : '/' ∉ l) :
    cleanHandleList l = pyStrip l := by
  have h1 : containsSub "/status/".toList l = false := by
    cases h : containsSub "/status/".toList l
    · rfl
    · exact absurd (containsSub_mem _ _ h '/' (by decide)) hSl
  have h2 : removeAll "@".toList l = l := removeAll_eq_self (by decide) hAt
  have h3 : removeAll "https://x.com/".toList l = l := removeAll_eq_self (c := '/') (by decide) hSl
  have h4 : removeAll "https://twitter.com/".toList l = l :=
    removeAll_eq_self (c := '/') (by decide) hSl
  have h5 : removeAll "https://www.x.com/".toList l = l :=
    removeAll_eq_self (c := '/') (by decide) hSl
  have h6 : removeAll "https://www.twitter.com/".toList l = l :=
    removeAll_eq_self (c := '/') (by decide) hSl
  have h7 : removeAll "x.com/".toList l = l := removeAll_eq_self (c := '/') (by decide) hSl
  have h8 : removeAll "twitter.com/".toList l = l := removeAll_eq_self (c := '/') (by decide) hSl
  have h9 : containsSub ['/'] (pyStrip l) = false := by
    cases h : containsSub ['/'] (pyStrip l)
    · rfl
    · exact absurd (pyStrip_subset (containsSub_mem _ _ h '/' (by decide))) hSl
  simp only [cleanHandleList, h1, Bool.false_eq_true, if_false, ite_false,
    h2, h3, h4, h5, h6, h7, h8, h9]

/-- C8: `clean_twitter_handle` is idempotent on every already-bare handle (no
`'@'`, no URL prefix — every stripped URL pattern contains `'/'` — and no
`'/'`), and on `"@foo"`, `"https://x.com/foo"` and
`"https://twitter.com/foo/status/123"` it returns exactly `"foo"`. -/
theorem clean_twitter_handle_spec :
    (∀ x : String, '@' ∉ x.toList → '/' ∉ x.toList →
      clean_twitter_handle (clean_twitter_handle x) = clean_twitter_handle x) ∧
    clean_twitter_handle "@foo" = "foo" ∧
    clean_twitter_handle "https://x.com/foo" = "foo" ∧
    clean_twitter_handle "https://twitter.com/foo/status/123" = "foo" := by
  refine ⟨?_, by decide, by decide, by decide⟩
  intro x hAt hSl
  by_cases hx : x = ""
  · subst hx; rfl
  · have hx1 : clean_twitter_handle x = String.mk (pyStrip x.toList) := by
      simp only [clean_twitter_handle, if_neg hx]
      rw [cleanHandleList_eq_pyStrip _ hAt hSl]
    rw [hx1]
    have hAt2 : '@' ∉ pyStrip x.toList := fun hm => hAt (pyStrip_subset hm)
    have hSl2 : '/' ∉ pyStrip x.toList := fun hm => hSl (pyStrip_subset hm)
    by_cases h0 : String.mk (pyStrip x.toList) = ""
    · simp only [clean_twitter_handle, if_pos h0]
      exact h0.symm
    · simp only [clean_twitter_handle, if_neg h0]
      have htl : (String.mk (pyStrip x.toList)).toList = pyStrip x.toList := rfl
      rw [htl, cleanHandleList_eq_pyStrip _ hAt2 hSl2, pyStrip_idem]

/-- C8 witness: `"foo bar"` contains no `'@'`, no URL prefix and no `'/'`, and
cleaning it twice equals cleaning it once. -/
theorem clean_twitter_handle_spec_witness :
    clean_twitter_handle (clean_twitter_handle "foo bar") = clean_twitter_handle "foo bar" :=
  clean_twitter_handle_spec.1 "foo bar" (by decide) (by decide)

/-- C10: in one polling iteration only the batch's single most recent signature
is ever compared and checked: everything handed to
`check_transaction_for_token_creation` is the head of the batch and differs
from the remembered signature; when the head is new it alone is checked, and
when it equals the remembered signature nothing is checked. -/
theorem monitor_polling_head_only : ∀ (last : Option String) (sigs : List String),
    (∀ x ∈ (monitor_polling_step last sigs).2, sigs.head? = some x ∧ some x ≠ last) ∧
    (∀ s0 rest, sigs = s0 :: rest → some s0 ≠ last →
      monitor_polling_step last sigs = (some s0, [s0])) ∧
    (∀ s0 rest, sigs = s0 :: rest → some s0 = last →
      monitor_polling_step last sigs = (last, [])) := by
  intro last sigs
  refine ⟨?_, ?_, ?_⟩
  · intro x hx
    match sigs with
    | [] => simp [monitor_polling_step] at hx
    | s0 :: rest =>
      by_cases h : some s0 = last
      · simp [monitor_polling_step, h] at hx
      · simp only [monitor_polling_step, if_pos (by exact fun he => h he)] at hx
        simp only [List.mem_singleton] at hx
        subst hx
        exact ⟨rfl, h⟩
  · intro s0 rest hs h
    subst hs
    simp [monitor_polling_step, h]
  · intro s0 rest hs h
    subst hs
    simp [monitor_polling_step, h]

/-- C10 witness: with remembered signature absent and batch
`["s1", "s2", "s3"]`, the checked signature is the head `"s1"`; the older batch
entries are never inspected. -/
theorem monitor_polling_head_only_witness :
    monitor_polling_step none ["s1", "s2", "s3"] = (some "s1", ["s1"]) :=
  (monitor_polling_head_only none ["s1", "s2", "s3"]).2.1 "s1" ["s2", "s3"] rfl (by decide)
